import Mathlib

/-!
Verification development for the telegram-socks5 proxy.

The definitions below are shallow embeddings of the Python sources
`src/main.py` (SOCKS5 protocol engine, rate limiter, domain filter,
client admission) and `src/bypass_server.py` (traffic obfuscator, port
hopper).  Byte strings and text strings are both modeled as `List Nat`
of byte values / Unicode code points; timestamps (Python floats from
`time.time()`) are modeled as `ℚ`.
-/

namespace TgSocks

/-- Convert a Lean string literal to its list of code points.  All strings
appearing in the proxy sources are ASCII, so this is also their byte
encoding (`str.encode()` in Python). -/
def str2b (s : String) : List Nat := s.data.map Char.toNat

/-- Split a byte list at every occurrence of the byte `sep`; model of
Python `str.split(sep)` for a one-character separator. -/
def splitOn (sep : Nat) : List Nat → List (List Nat)
  | [] => [[]]
  | c :: rest =>
    match splitOn sep rest with
    | [] => [[]]
    | a :: as => if c = sep then [] :: a :: as else (c :: a) :: as

/-- ASCII decimal digit test (Python's `str.isascii() and str.isdigit()`
combination used by the `ipaddress` module). -/
def isDigit (c : Nat) : Bool := 48 ≤ c && c ≤ 57

/-- Numeric value of an ASCII digit string (Python `int(s)` on digits). -/
def digitsToNat (l : List Nat) : Nat := l.foldl (fun a c => a * 10 + (c - 48)) 0

/-- Model of `ipaddress._parse_octet`: a dotted-quad component must be a
nonempty ASCII digit string of at most three digits, without a leading
zero (unless it is exactly "0"), with value at most 255. -/
def parseOctet (l : List Nat) : Option Nat :=
  if l.isEmpty then none
  else if !(l.all isDigit) then none
  else if 3 < l.length then none
  else if 1 < l.length && l.headD 0 == 48 then none
  else if digitsToNat l ≤ 255 then some (digitsToNat l) else none

/-- Model of `ipaddress.ip_address` restricted to IPv4 dotted-quad
literals, returning the address as a number below `2 ^ 32`.
IPv6 literals are modeled as unparsed: every CIDR entry of the proxy's
allow set is IPv4, and in Python an IPv6 address is never contained in an
IPv4 network (`IPv4Network.__contains__` returns `False` across
versions), so an IPv6 literal behaves exactly like an unparsable string
for every check the filter performs. -/
def parseIPv4 (addr : List Nat) : Option Nat :=
  match splitOn 46 addr with
  | [a, b, c, d] =>
    match parseOctet a, parseOctet b, parseOctet c, parseOctet d with
    | some x, some y, some z, some w => some (((x * 256 + y) * 256 + z) * 256 + w)
    | _, _, _, _ => none
  | _ => none

/-- Model of `ipaddress`'s parsing of a prefix length string: nonempty,
ASCII digits only, value at most 32. -/
def parsePrefixLen (l : List Nat) : Option Nat :=
  if l.isEmpty then none
  else if !(l.all isDigit) then none
  else if digitsToNat l ≤ 32 then some (digitsToNat l) else none

/-- Model of `ipaddress.ip_network(cidr, strict=False)` for IPv4 CIDR
strings: split at `'/'` (rejecting more than one slash, as
`ip_network` does), parse the network address and the prefix length. -/
def parseCidr (c : List Nat) : Option (Nat × Nat) :=
  match splitOn 47 c with
  | [a, p] =>
    match parseIPv4 a, parsePrefixLen p with
    | some net, some pl => some (net, pl)
    | _, _ => none
  | _ => none

/-- Model of `ip in ipaddress.ip_network(cidr, strict=False)`: the address
and the (host-bits-masked) network agree on the top `pl` bits.  Returns
`false` when the CIDR string does not parse (the source wraps the check
in `try ... except ValueError: continue`). -/
def cidrContains (c : List Nat) (ip : Nat) : Bool :=
  match parseCidr c with
  | some (net, pl) => ip / 2 ^ (32 - pl) == net / 2 ^ (32 - pl)
  | none => false

/-- The default allow set `ProxyConfig.telegram_domains` from
`src/main.py` (a Python set literal; its duplicate entry
`'149.154.160.0/20'` is deduplicated by the set constructor). -/
def telegramDomains : List (List Nat) :=
  [str2b "api.telegram.org",
   str2b "core.telegram.org",
   str2b "web.telegram.org",
   str2b "desktop.telegram.org",
   str2b "updates.tdesktop.com",
   str2b "149.154.160.0/20",
   str2b "91.108.4.0/22",
   str2b "91.108.8.0/22",
   str2b "91.108.12.0/22",
   str2b "91.108.16.0/22",
   str2b "91.108.20.0/22",
   str2b "91.108.56.0/22",
   str2b "149.154.164.0/22",
   str2b "149.154.168.0/22",
   str2b "149.154.172.0/22"]

/-- Model of `SOCKS5Server._is_telegram_address` from `src/main.py`:
exact membership in the allow set, then the subdomain suffix check
(skipping entries that start with `"*."`), then — if the address parses
as an IP literal — membership in any CIDR entry (entries containing
`'/'`). -/
def isTelegramAddress (domains : List (List Nat)) (addr : List Nat) : Bool :=
  domains.contains addr ||
  domains.any (fun d => !((str2b "*.").isPrefixOf d) && (str2b "." ++ d).isSuffixOf addr) ||
  (match parseIPv4 addr with
   | some ip => domains.any (fun c => c.contains 47 && cidrContains c ip)
   | none => false)

/-- The Domain Filter acceptance condition exactly as claim C2 states it:
the address equals an allow-set entry, or ends with `'.'` followed by an
allow-set entry, or parses as an IP literal lying inside an allow-set
CIDR entry.  This definition follows the specification's words and is
compared with the source-derived `isTelegramAddress`. -/
def filterSpecAccepts (domains : List (List Nat)) (addr : List Nat) : Prop :=
  addr ∈ domains ∨
  (∃ d ∈ domains, ∃ pre, addr = pre ++ (str2b "." ++ d)) ∨
  (∃ ip, parseIPv4 addr = some ip ∧ ∃ c ∈ domains, c.contains 47 = true ∧ cidrContains c ip = true)

/-- C2: for every address string, the Domain Filter accepts it if and only
if at least one of the three checks of the specification succeeds: exact
match with an allow-set entry, strict subdomain suffix match on
`"." ++ entry`, or an IP literal lying inside an allow-set CIDR entry; no
wildcard prefix matching is performed. -/
theorem c2_filter_matches_spec (addr : List Nat) :
    isTelegramAddress telegramDomains addr = true ↔ filterSpecAccepts telegramDomains addr := by
  have hstar : ∀ d ∈ telegramDomains, (str2b "*.").isPrefixOf d = false := by decide
  unfold isTelegramAddress filterSpecAccepts
  rcases hip : parseIPv4 addr with _ | ip <;>
    simp only [hip, Bool.or_eq_true, List.any_eq_true, Bool.and_eq_true, Bool.not_eq_true',
      List.elem_iff, List.isSuffixOf_iff_suffix]
  · constructor
    · rintro ((h | ⟨d, hd, _, pre, hpre⟩) | h)
      · exact Or.inl h
      · exact Or.inr (Or.inl ⟨d, hd, pre, hpre.symm⟩)
      · cases h
    · rintro (h | ⟨d, hd, pre, hpre⟩ | ⟨ip, hip2, _⟩)
      · exact Or.inl (Or.inl h)
      · exact Or.inl (Or.inr ⟨d, hd, hstar d hd, pre, hpre.symm⟩)
      · cases hip2
  · constructor
    · rintro ((h | ⟨d, hd, _, pre, hpre⟩) | ⟨c, hc, hslash, hcidr⟩)
      · exact Or.inl h
      · exact Or.inr (Or.inl ⟨d, hd, pre, hpre.symm⟩)
      · exact Or.inr (Or.inr ⟨ip, rfl, c, hc, hslash, hcidr⟩)
    · rintro (h | ⟨d, hd, pre, hpre⟩ | ⟨ip2, hip2, c, hc, hslash, hcidr⟩)
      · exact Or.inl (Or.inl h)
      · exact Or.inl (Or.inr ⟨d, hd, hstar d hd, pre, hpre.symm⟩)
      · cases hip2
        exact Or.inr ⟨c, hc, hslash, hcidr⟩

/-- C10: the exact-match and subdomain-suffix checks of the Domain Filter
range over every allow-set entry including the CIDR entries: the address
string `"149.154.160.0/20"` itself is accepted, and so is every address
ending in `".149.154.160.0/20"`, because CIDR strings are not excluded
from the hostname checks. -/
theorem c10_cidr_entries_match_hostname_checks :
    isTelegramAddress telegramDomains (str2b "149.154.160.0/20") = true ∧
    ∀ pre : List Nat,
      isTelegramAddress telegramDomains (pre ++ str2b ".149.154.160.0/20") = true := by
  refine ⟨by decide, fun pre => ?_⟩
  unfold isTelegramAddress
  rw [Bool.or_eq_true, Bool.or_eq_true]
  refine Or.inl (Or.inr (List.any_eq_true.mpr ⟨str2b "149.154.160.0/20", by decide, ?_⟩))
  rw [Bool.and_eq_true]
  refine ⟨by decide, List.isSuffixOf_iff_suffix.mpr ?_⟩
  have h : str2b ".149.154.160.0/20" = str2b "." ++ str2b "149.154.160.0/20" := by decide
  rw [← h]
  exact List.suffix_append pre _

/-- Decimal digit rendering of a natural number, with explicit fuel so the
definition is structural (the fuel `n + 1` always suffices). -/
def decDigitsGo (fuel n : Nat) : List Nat :=
  match fuel with
  | 0 => []
  | fuel' + 1 => if n < 10 then [48 + n] else decDigitsGo fuel' (n / 10) ++ [48 + n % 10]

/-- ASCII decimal rendering of a natural number (`str(n)` in Python). -/
def decDigits (n : Nat) : List Nat := decDigitsGo (n + 1) n

/-- Lowercase hexadecimal digit. -/
def hexDigit (v : Nat) : Nat := if v < 10 then 48 + v else 87 + v

/-- Lowercase hexadecimal rendering without leading zeros, fueled like
`decDigitsGo`. -/
def hexDigitsGo (fuel n : Nat) : List Nat :=
  match fuel with
  | 0 => []
  | fuel' + 1 => if n < 16 then [hexDigit n] else hexDigitsGo fuel' (n / 16) ++ [hexDigit (n % 16)]

/-- ASCII lowercase hexadecimal rendering of a natural number. -/
def hexDigits (n : Nat) : List Nat := hexDigitsGo (n + 1) n

/-- Model of `socket.inet_ntoa`: dotted-quad rendering of four bytes. -/
def ipv4Str (a b c d : Nat) : List Nat :=
  decDigits a ++ [46] ++ decDigits b ++ [46] ++ decDigits c ++ [46] ++ decDigits d

/-- Join byte lists with a separator. -/
def joinWith (sep : Nat) : List (List Nat) → List Nat
  | [] => []
  | [x] => x
  | x :: xs => x ++ sep :: joinWith sep xs

/-- Hexadecimal 16-bit groups of an IPv6 address given as bytes. -/
def ipv6Groups : List Nat → List (List Nat)
  | a :: b :: rest => hexDigits (a * 256 + b) :: ipv6Groups rest
  | [a] => [hexDigits a]
  | [] => []

/-- Model of `socket.inet_ntop(AF_INET6, ·)`: hexadecimal groups joined by
`':'`.  The model renders all eight groups and does not reproduce
`inet_ntop`'s `::` zero-run compression; no claim depends on the exact
shape of the rendered IPv6 string (the engine only passes it to the
Domain Filter, and the theorems below treat it as an opaque address). -/
def ipv6Str (bytes : List Nat) : List Nat := joinWith 58 (ipv6Groups bytes)

/-- Model of `bytes.decode('utf-8', errors='ignore')` for the address
bytes of a domain-type request.  The model decodes single-byte (ASCII)
characters and drops all other bytes; it deviates from Python only on
inputs containing valid multi-byte UTF-8 sequences, which no claim
exercises (the allow list is pure ASCII). -/
def utf8DecodeIgnore (l : List Nat) : List Nat := l.filter (fun b => b < 128)

/-- Fixed 10-byte SOCKS5 reply PDU
`struct.pack('!BBBBIH', 5, code, 0, 1, 0, 0)` from `src/main.py`. -/
def socksReply (code : Nat) : List Nat := [5, code, 0, 1, 0, 0, 0, 0, 0, 0]

/-- Result of the greeting handler: the bytes written to the client and
whether the session proceeds (to authentication / the request phase). -/
def handleGreeting (authRequired : Bool) (data : List Nat) : List Nat × Bool :=
  if data.length < 3 then ([], false)
  else
    let version := data.getD 0 0
    let nmethods := data.getD 1 0
    if version ≠ 5 then ([], false)
    else
      let methods := (data.drop 2).take nmethods
      if authRequired then
        if methods.contains 2 then ([5, 2], true) else ([5, 255], false)
      else ([5, 0], true)

/-- Outcome of the address-parsing block of
`SOCKS5Server._handle_socks5_request`: a parsed target, a silent drop on
a short read, or an unsupported address type. -/
inductive ParseOutcome where
  | ok (addr : List Nat) (port : Nat)
  | short
  | bad
deriving DecidableEq

/-- Model of the address-parsing block of
`SOCKS5Server._handle_socks5_request` (`src/main.py`, the
`addr_type` dispatch): IPv4 (type 1), domain (type 3, one length byte),
IPv6 (type 4); every length guard of the source is kept, including the
redundant ones. -/
def requestParse (data : List Nat) : ParseOutcome :=
  let atyp := data.getD 3 0
  if atyp = 1 then
    if data.length < 10 then .short
    else
      .ok (ipv4Str (data.getD 4 0) (data.getD 5 0) (data.getD 6 0) (data.getD 7 0))
        ((data.getD 8 0) * 256 + data.getD 9 0)
  else if atyp = 3 then
    if data.length < 5 then .short
    else
      let n := data.getD 4 0
      if data.length < 5 + n + 2 then .short
      else
        .ok (utf8DecodeIgnore ((data.drop 5).take n))
          ((data.getD (5 + n) 0) * 256 + data.getD (5 + n + 1) 0)
  else if atyp = 4 then
    if data.length < 22 then .short
    else .ok (ipv6Str ((data.drop 4).take 16)) ((data.getD 20 0) * 256 + data.getD 21 0)
  else .bad

/-- Result of one run of the request handler: a silent close with no
reply bytes, a reply written with no upstream dial, or an upstream dial
attempt to the parsed target. -/
inductive ReqResult where
  | silent
  | replyNoDial (reply : List Nat)
  | dial (addr : List Nat) (port : Nat)
deriving DecidableEq

/-- Model of `SOCKS5Server._handle_socks5_request` up to the upstream
dial: short reads are dropped silently, a version or command mismatch
gets reply code 7, an unknown address type reply code 8, a target
rejected by the Domain Filter reply code 2, and an accepted target leads
to the upstream dial. -/
def handleRequest (domains : List (List Nat)) (data : List Nat) : ReqResult :=
  if data.length < 10 then .silent
  else if data.getD 0 0 ≠ 5 ∨ data.getD 1 0 ≠ 1 then .replyNoDial (socksReply 7)
  else
    match requestParse data with
    | .bad => .replyNoDial (socksReply 8)
    | .short => .silent
    | .ok a p =>
      if isTelegramAddress domains a then .dial a p else .replyNoDial (socksReply 2)

/-- C1: for every CONNECT request (version 5, command 1, parseable target)
whose target address is not accepted by the Domain Filter, the engine
sends exactly the 10-byte reply with code 2 and closes the session
without ever dialing the upstream destination. -/
theorem c1_rejected_target_reply2_no_dial (domains : List (List Nat)) (data a : List Nat)
    (p : Nat) (hlen : ¬ data.length < 10) (hv : data.getD 0 0 = 5) (hc : data.getD 1 0 = 1)
    (hparse : requestParse data = .ok a p) (hrej : isTelegramAddress domains a = false) :
    handleRequest domains data = .replyNoDial (socksReply 2) ∧
    socksReply 2 = [5, 2, 0, 1, 0, 0, 0, 0, 0, 0] ∧ (socksReply 2).length = 10 ∧
    ∀ a2 p2, handleRequest domains data ≠ .dial a2 p2 := by
  have h : handleRequest domains data = .replyNoDial (socksReply 2) := by
    unfold handleRequest
    rw [if_neg hlen, if_neg (by rw [hv, hc]; simp), hparse]
    simp [hrej]
  exact ⟨h, rfl, rfl, fun a2 p2 hd => by rw [h] at hd; cases hd⟩

/-- C1 witness: a CONNECT request for `evil.example.com:80` is rejected
with the code-2 reply and no dial. -/
theorem c1_rejected_target_reply2_no_dial_witness :
    handleRequest telegramDomains ([5, 1, 0, 3, 16] ++ str2b "evil.example.com" ++ [0, 80]) =
      .replyNoDial (socksReply 2) :=
  (c1_rejected_target_reply2_no_dial telegramDomains
    ([5, 1, 0, 3, 16] ++ str2b "evil.example.com" ++ [0, 80]) (str2b "evil.example.com") 80
    (by decide) (by decide) (by decide) (by decide) (by decide)).1

/-- C9: a domain-type CONNECT request whose domain name has `n ≤ 2` bytes
occupies only `7 + n` bytes on the wire, which is below the engine's
10-byte minimum, so it is silently dropped with no reply bytes even
though it is well formed. -/
theorem c9_short_domain_request_dropped (domains : List (List Nat)) (n : Nat)
    (dom : List Nat) (p1 p2 : Nat) (hn : dom.length = n) (hshort : n ≤ 2) :
    ([5, 1, 0, 3, n] ++ dom ++ [p1, p2]).length = 7 + n ∧
    handleRequest domains ([5, 1, 0, 3, n] ++ dom ++ [p1, p2]) = .silent := by
  have hl : ([5, 1, 0, 3, n] ++ dom ++ [p1, p2]).length = 7 + n := by
    simp [hn]; omega
  refine ⟨hl, ?_⟩
  unfold handleRequest
  rw [if_pos]
  rw [hl]
  omega

/-- C9 witness: the 9-byte CONNECT request for the two-byte domain "ab"
is silently dropped. -/
theorem c9_short_domain_request_dropped_witness :
    ([5, 1, 0, 3, 2] ++ [97, 98] ++ [0, 80]).length = 7 + 2 ∧
    handleRequest telegramDomains ([5, 1, 0, 3, 2] ++ [97, 98] ++ [0, 80]) = .silent :=
  c9_short_domain_request_dropped telegramDomains 2 [97, 98] 0 80 rfl (by decide)

/-- C5 counterexample: a 10-byte request message with version byte 4 is
not closed silently — the engine writes the 10-byte code-7 reply, so the
claim that an unsupported version byte in the request message produces a
silent close with no reply bytes is false. -/
theorem c5_counterexample :
    handleRequest telegramDomains [4, 1, 0, 1, 8, 8, 8, 8, 0, 80] =
      .replyNoDial (socksReply 7) ∧
    ReqResult.replyNoDial (socksReply 7) ≠ .silent ∧ socksReply 7 ≠ [] := by
  refine ⟨by decide, ?_, by decide⟩
  intro h
  cases h

/-- C5 amended: an unsupported version byte in the greeting causes a
silent close with no reply bytes; an unsupported version byte in a
request message of at least 10 bytes instead gets the 10-byte code-7
reply; request reads shorter than 10 bytes are dropped silently. -/
theorem c5_amended_version_handling :
    (∀ (authRequired : Bool) (data : List Nat), 3 ≤ data.length → data.getD 0 0 ≠ 5 →
      handleGreeting authRequired data = ([], false)) ∧
    (∀ (domains : List (List Nat)) (data : List Nat), 10 ≤ data.length → data.getD 0 0 ≠ 5 →
      handleRequest domains data = .replyNoDial (socksReply 7)) ∧
    (∀ (domains : List (List Nat)) (data : List Nat), data.length < 10 →
      handleRequest domains data = .silent) := by
  refine ⟨fun authRequired data h3 hv => ?_, fun domains data h10 hv => ?_,
    fun domains data hshort => ?_⟩
  · unfold handleGreeting
    rw [if_neg (by omega), if_pos hv]
  · unfold handleRequest
    rw [if_neg (by omega), if_pos (Or.inl hv)]
  · unfold handleRequest
    rw [if_pos hshort]

/-- C5 amended witness: version byte 4 in the greeting is dropped
silently, version byte 4 in a full request gets the code-7 reply, and a
9-byte request read is dropped silently. -/
theorem c5_amended_version_handling_witness :
    handleGreeting true [4, 1, 0] = ([], false) ∧
    handleRequest telegramDomains [4, 1, 0, 1, 8, 8, 8, 8, 0, 80] =
      .replyNoDial (socksReply 7) ∧
    handleRequest telegramDomains [4, 1, 0, 1, 8, 8, 8, 8, 0] = .silent :=
  ⟨c5_amended_version_handling.1 true [4, 1, 0] (by decide) (by decide),
   c5_amended_version_handling.2.1 telegramDomains [4, 1, 0, 1, 8, 8, 8, 8, 0, 80]
     (by decide) (by decide),
   c5_amended_version_handling.2.2 telegramDomains [4, 1, 0, 1, 8, 8, 8, 8, 0] (by decide)⟩

/-- C6: for every well-formed greeting `[5, n] ++ methods` with a
nonempty method list of at most 255 methods: with authentication
required and method 2 offered the server replies `[5, 2]` and proceeds;
with authentication not required it replies `[5, 0]` and proceeds; with
authentication required and method 2 not offered it replies `[5, 255]`
and terminates the session. -/
theorem c6_greeting_method_selection (methods : List Nat)
    (h1 : 1 ≤ methods.length) (h2 : methods.length ≤ 255) :
    (methods.contains 2 = true →
      handleGreeting true ([5, methods.length] ++ methods) = ([5, 2], true)) ∧
    handleGreeting false ([5, methods.length] ++ methods) = ([5, 0], true) ∧
    (methods.contains 2 = false →
      handleGreeting true ([5, methods.length] ++ methods) = ([5, 255], false)) := by
  have hdata : ([5, methods.length] ++ methods) = 5 :: methods.length :: methods := rfl
  have hlen : (5 :: methods.length :: methods).length = 2 + methods.length := by
    simp; omega
  have hmeth : ((5 :: methods.length :: methods).drop 2).take
      ((5 :: methods.length :: methods).getD 1 0) = methods := by
    simp [List.getD]
  refine ⟨fun hoff => ?_, ?_, fun hnot => ?_⟩ <;>
    · rw [hdata]
      unfold handleGreeting
      rw [if_neg (by rw [hlen]; omega), if_neg (by simp [List.getD])]
      simp only [hmeth]
      simp_all

/-- C6 witness: concrete greetings for the three cases. -/
theorem c6_greeting_method_selection_witness :
    handleGreeting true [5, 2, 0, 2] = ([5, 2], true) ∧
    handleGreeting false [5, 2, 0, 1] = ([5, 0], true) ∧
    handleGreeting true [5, 2, 0, 1] = ([5, 255], false) :=
  ⟨(c6_greeting_method_selection [0, 2] (by decide) (by decide)).1 (by decide),
   (c6_greeting_method_selection [0, 1] (by decide) (by decide)).2.1,
   (c6_greeting_method_selection [0, 1] (by decide) (by decide)).2.2 (by decide)⟩

/-- The addresses exempted inside `RateLimiter.is_allowed`
(`src/main.py` line 86). -/
def exemptIps : List (List Nat) := [str2b "127.0.0.1", str2b "::1", str2b "localhost"]

/-- Result of one admission check: the decision, the per-IP timestamp
record afterwards, and the `RATE_LIMIT_HITS` counter afterwards. -/
structure RLResult where
  allowed : Bool
  state : List ℚ
  hits : Nat
deriving DecidableEq

/-- Model of `RateLimiter.is_allowed` (`src/main.py` lines 83-101) for one
source IP: exempt localhost-style addresses unconditionally; otherwise
pop timestamps `≤ now - window` from the front of the deque, reject
(incrementing the violation counter) when at least `maxRequests` remain,
and otherwise record `now` and admit. -/
def isAllowed (maxRequests : Nat) (window : ℚ) (ip : List Nat) (state : List ℚ)
    (hits : Nat) (now : ℚ) : RLResult :=
  if exemptIps.contains ip then ⟨true, state, hits⟩
  else
    let pruned := state.dropWhile (fun t => decide (t ≤ now - window))
    if maxRequests ≤ pruned.length then ⟨false, pruned, hits + 1⟩
    else ⟨true, pruned ++ [now], hits⟩

/-- Sequential admission checks for one source IP, threading the record
and the violation counter; returns the list of decisions together with
the final record and counter. -/
def runLimiter (maxRequests : Nat) (window : ℚ) (ip : List Nat) :
    List ℚ → List ℚ → Nat → List Bool × List ℚ × Nat
  | [], state, hits => ([], state, hits)
  | t :: ts, state, hits =>
    let r := isAllowed maxRequests window ip state hits t
    let res := runLimiter maxRequests window ip ts r.state r.hits
    (r.allowed :: res.1, res.2)

/-- Admission decision exactly as claim C4 words it: prune the
timestamps strictly older than `now - window`, then admit iff strictly
fewer than `maxRequests` remain.  This definition follows the claim's
words and is compared with the source-derived `isAllowed`. -/
def c4SpecAdmits (maxRequests : Nat) (window : ℚ) (state : List ℚ) (now : ℚ) : Prop :=
  (state.filter (fun t => decide (now - window ≤ t))).length < maxRequests

/-- Dropping from the front never lengthens a list. -/
theorem dropWhileLengthLe {α : Type} (p : α → Bool) :
    ∀ l : List α, (l.dropWhile p).length ≤ l.length
  | [] => le_refl _
  | a :: l => by
    rw [List.dropWhile_cons]
    by_cases h : p a = true
    · rw [if_pos h]
      exact le_trans (dropWhileLengthLe p l) (by simp)
    · rw [if_neg h]

/-- Dropping from the front does nothing when no element satisfies the
predicate. -/
theorem dropWhileAllFalse {α : Type} (p : α → Bool) :
    ∀ l : List α, (∀ x ∈ l, p x = false) → l.dropWhile p = l
  | [], _ => rfl
  | a :: l, h => by
    rw [List.dropWhile_cons, if_neg (by simp [h a (List.mem_cons_self a l)])]

/-- On a sorted record, popping old timestamps from the front agrees with
filtering for fresh ones. -/
theorem sortedDropWhileEqFilter (c : ℚ) :
    ∀ l : List ℚ, l.Sorted (· ≤ ·) →
      l.dropWhile (fun t => decide (t ≤ c)) = l.filter (fun t => decide (c < t))
  | [], _ => rfl
  | a :: l, h => by
    rcases List.sorted_cons.mp h with ⟨hall, hsort⟩
    by_cases hac : a ≤ c
    · rw [List.dropWhile_cons, if_pos (by simpa using hac), List.filter_cons,
        if_neg (by simpa using not_lt.mpr hac)]
      exact sortedDropWhileEqFilter c l hsort
    · push_neg at hac
      rw [List.dropWhile_cons, if_neg (by simpa using not_le.mpr hac), List.filter_cons,
        if_pos (by simpa using hac)]
      rw [List.filter_eq_self.mpr]
      intro x hx
      simpa using lt_of_lt_of_le hac (hall x hx)

/-- A run of admission checks in which nothing is ever pruned and the
limit is never reached admits every connection and records every
timestamp. -/
theorem runLimiterAllAdmitted (maxRequests : Nat) (window : ℚ) (ip : List Nat)
    (hip : exemptIps.contains ip = false) :
    ∀ (arr state : List ℚ) (hits : Nat),
      (∀ v ∈ arr, ∀ u ∈ state ++ arr, ¬ (u ≤ v - window)) →
      state.length + arr.length ≤ maxRequests →
      runLimiter maxRequests window ip arr state hits =
        (List.replicate arr.length true, state ++ arr, hits) := by
  intro arr
  induction arr with
  | nil => intro state hits _ _; simp [runLimiter]
  | cons a arr ih =>
    intro state hits hfresh hlen
    have hstate : state.dropWhile (fun t => decide (t ≤ a - window)) = state := by
      apply dropWhileAllFalse
      intro x hx
      simp only [decide_eq_false_iff_not]
      exact hfresh a (List.mem_cons_self a arr) x (List.mem_append_left _ hx)
    have hlt : state.length < maxRequests := by
      simp only [List.length_cons] at hlen
      omega
    have hr : isAllowed maxRequests window ip state hits a = ⟨true, state ++ [a], hits⟩ := by
      unfold isAllowed
      rw [if_neg (by rw [hip]; simp)]
      simp only [hstate]
      rw [if_neg (by omega)]
    have h1 : ∀ v ∈ arr, ∀ u ∈ (state ++ [a]) ++ arr, ¬ (u ≤ v - window) := by
      intro v hv u hu
      refine hfresh v (List.mem_cons_of_mem a hv) u ?_
      simp only [List.append_assoc, List.singleton_append] at hu
      exact hu
    have h2 : (state ++ [a]).length + arr.length ≤ maxRequests := by
      simp only [List.length_append, List.length_singleton]
      simp only [List.length_cons] at hlen
      omega
    simp only [runLimiter, hr, ih (state ++ [a]) hits h1 h2]
    simp [List.replicate_succ, List.append_assoc]

/-- Distributing a run of admission checks over list concatenation. -/
theorem runLimiterAppend (maxRequests : Nat) (window : ℚ) (ip : List Nat) :
    ∀ (xs ys state : List ℚ) (hits : Nat),
      runLimiter maxRequests window ip (xs ++ ys) state hits =
        ((runLimiter maxRequests window ip xs state hits).1 ++
          (runLimiter maxRequests window ip ys
            (runLimiter maxRequests window ip xs state hits).2.1
            (runLimiter maxRequests window ip xs state hits).2.2).1,
         (runLimiter maxRequests window ip ys
            (runLimiter maxRequests window ip xs state hits).2.1
            (runLimiter maxRequests window ip xs state hits).2.2).2) := by
  intro xs
  induction xs with
  | nil => intro ys state hits; simp [runLimiter]
  | cons x xs ih => intro ys state hits; simp [runLimiter, ih]

/-- C4 counterexample: with limit 1 and window 60, a record holding the
single timestamp 0 and an admission check at time 60, the recorded
timestamp is exactly `now - window` — strictly pruning only the
timestamps older than `now - window` would keep it and reject the
connection, but the code pops timestamps `≤ now - window` and admits. -/
theorem c4_counterexample :
    (isAllowed 1 60 (str2b "203.0.113.5") [0] 0 60).allowed = true ∧
    ¬ c4SpecAdmits 1 60 [0] 60 := by
  constructor
  · unfold isAllowed
    rw [if_neg (by decide)]
    have h : ([0] : List ℚ).dropWhile (fun t => decide (t ≤ 60 - 60)) = [] := by
      rw [List.dropWhile_cons, if_pos]
      · rfl
      · simp only [decide_eq_true_eq]
        norm_num
    simp only [h]
    rfl
  · unfold c4SpecAdmits
    have h : ([0] : List ℚ).filter (fun t => decide (60 - 60 ≤ t)) = [0] := by
      rw [List.filter_cons, if_pos]
      · rfl
      · simp only [decide_eq_true_eq]
        norm_num
    rw [h]
    simp

/-- C4 amended: for a non-exempt source IP the limiter prunes the
timestamps that are at least `window` old (`t ≤ now - window`, i.e. the
claim's "older than `now - window`" made inclusive of the boundary),
admits iff strictly fewer than `maxRequests` remain, records `now` and
leaves the violation counter unchanged exactly on admission; with limit
`N`, the `(N+1)`-th connection arriving strictly within `window` of the
first is rejected, and a new connection arriving at least `window` after
the first is admitted. -/
theorem c4_amended_sliding_window :
    (∀ (maxRequests : Nat) (window : ℚ) (ip : List Nat) (state : List ℚ) (hits : Nat) (now : ℚ),
      exemptIps.contains ip = false → state.Sorted (· ≤ ·) →
      isAllowed maxRequests window ip state hits now =
        (if maxRequests ≤ (state.filter (fun t => decide (now - window < t))).length then
          ⟨false, state.filter (fun t => decide (now - window < t)), hits + 1⟩
         else ⟨true, state.filter (fun t => decide (now - window < t)) ++ [now], hits⟩)) ∧
    (∀ (maxRequests : Nat) (window : ℚ) (ip : List Nat) (t1 : ℚ) (rest : List ℚ) (t : ℚ),
      exemptIps.contains ip = false → (t1 :: rest).Sorted (· ≤ ·) →
      (∀ u ∈ t1 :: rest, u ≤ t) → t - t1 < window →
      (t1 :: rest).length = maxRequests →
      runLimiter maxRequests window ip ((t1 :: rest) ++ [t]) [] 0 =
        (List.replicate maxRequests true ++ [false], t1 :: rest, 1)) ∧
    (∀ (maxRequests : Nat) (window : ℚ) (ip : List Nat) (t1 : ℚ) (rest : List ℚ) (t2 : ℚ),
      exemptIps.contains ip = false → (t1 :: rest).Sorted (· ≤ ·) →
      (∀ u ∈ t1 :: rest, u - t1 < window) →
      (t1 :: rest).length = maxRequests →
      t1 + window ≤ t2 →
      (runLimiter maxRequests window ip ((t1 :: rest) ++ [t2]) [] 0).1 =
        List.replicate maxRequests true ++ [true]) := by
  refine ⟨?_, ?_, ?_⟩
  · intro maxRequests window ip state hits now hip hsort
    unfold isAllowed
    rw [if_neg (by rw [hip]; simp)]
    simp only [sortedDropWhileEqFilter (now - window) state hsort]
  · intro maxRequests window ip t1 rest t hip hsort hle hspan hlen
    have hhead : ∀ u ∈ t1 :: rest, t1 ≤ u := by
      intro u hu
      rcases List.mem_cons.mp hu with h | h
      · exact h ▸ le_refl t1
      · exact (List.sorted_cons.mp hsort).1 u h
    have hfirst : runLimiter maxRequests window ip (t1 :: rest) [] 0 =
        (List.replicate maxRequests true, t1 :: rest, 0) := by
      have := runLimiterAllAdmitted maxRequests window ip hip (t1 :: rest) [] 0
        (by
          intro v hv u hu
          rw [List.nil_append] at hu
          have h1 : u ≤ t := hle u hu
          have h2 : t1 ≤ u := hhead u hu
          have h3 : v ≤ t := hle v hv
          have h4 : t1 ≤ v := hhead v hv
          intro hcon
          have : v - u < window := by linarith
          linarith)
        (by simp [hlen])
      simpa [hlen] using this
    rw [runLimiterAppend, hfirst]
    have hkeep : (t1 :: rest).dropWhile (fun u => decide (u ≤ t - window)) = t1 :: rest := by
      apply dropWhileAllFalse
      intro x hx
      simp only [decide_eq_false_iff_not]
      have := hhead x hx
      intro hcon
      linarith
    have hstep : isAllowed maxRequests window ip (t1 :: rest) 0 t = ⟨false, t1 :: rest, 1⟩ := by
      unfold isAllowed
      rw [if_neg (by rw [hip]; simp)]
      simp only [hkeep]
      rw [if_pos (by omega)]
    simp [runLimiter, hstep]
  · intro maxRequests window ip t1 rest t2 hip hsort hwin hlen hlate
    have hhead : ∀ u ∈ t1 :: rest, t1 ≤ u := by
      intro u hu
      rcases List.mem_cons.mp hu with h | h
      · exact h ▸ le_refl t1
      · exact (List.sorted_cons.mp hsort).1 u h
    have hfirst : runLimiter maxRequests window ip (t1 :: rest) [] 0 =
        (List.replicate maxRequests true, t1 :: rest, 0) := by
      have := runLimiterAllAdmitted maxRequests window ip hip (t1 :: rest) [] 0
        (by
          intro v hv u hu
          rw [List.nil_append] at hu
          have h2 : t1 ≤ u := hhead u hu
          have h4 : v - t1 < window := hwin v hv
          intro hcon
          linarith)
        (by simp [hlen])
      simpa [hlen] using this
    rw [runLimiterAppend, hfirst]
    have hdrop : (t1 :: rest).dropWhile (fun u => decide (u ≤ t2 - window)) =
        rest.dropWhile (fun u => decide (u ≤ t2 - window)) := by
      rw [List.dropWhile_cons, if_pos]
      simp only [decide_eq_true_eq]
      linarith
    have hlt : ((t1 :: rest).dropWhile (fun u => decide (u ≤ t2 - window))).length <
        maxRequests := by
      rw [hdrop]
      calc (rest.dropWhile (fun u => decide (u ≤ t2 - window))).length
          ≤ rest.length := dropWhileLengthLe _ rest
        _ < (t1 :: rest).length := by simp
        _ = maxRequests := hlen
    have hstep : (isAllowed maxRequests window ip (t1 :: rest) 0 t2).allowed = true := by
      unfold isAllowed
      rw [if_neg (by rw [hip]; simp)]
      simp only []
      rw [if_neg (by omega)]
    simp [runLimiter, hstep]

/-- C4 amended witness: limit 2, window 60, a non-exempt IP; the step
characterization at time 30, rejection of the third connection at time
30, and admission of a connection at time 60 (one window after the first
admission at time 0). -/
theorem c4_amended_sliding_window_witness :
    isAllowed 2 60 (str2b "203.0.113.5") [0, 1] 0 30 =
      (if 2 ≤ (([0, 1] : List ℚ).filter (fun t => decide ((30 : ℚ) - 60 < t))).length then
        ⟨false, ([0, 1] : List ℚ).filter (fun t => decide ((30 : ℚ) - 60 < t)), 0 + 1⟩
       else ⟨true, ([0, 1] : List ℚ).filter (fun t => decide ((30 : ℚ) - 60 < t)) ++ [30], 0⟩) ∧
    runLimiter 2 60 (str2b "203.0.113.5") (([0, 1] : List ℚ) ++ [30]) [] 0 =
      (List.replicate 2 true ++ [false], [0, 1], 1) ∧
    (runLimiter 2 60 (str2b "203.0.113.5") (([0, 1] : List ℚ) ++ [60]) [] 0).1 =
      List.replicate 2 true ++ [true] := by
  have hsorted : ([0, 1] : List ℚ).Sorted (· ≤ ·) := by
    norm_num [List.sorted_cons]
  refine ⟨c4_amended_sliding_window.1 2 60 _ [0, 1] 0 30 (by decide) hsorted,
          c4_amended_sliding_window.2.1 2 60 _ 0 [1] 30 (by decide) hsorted ?_ (by norm_num) rfl,
          c4_amended_sliding_window.2.2 2 60 _ 0 [1] 60 (by decide) hsorted ?_ rfl (by norm_num)⟩
  · intro u hu
    rcases List.mem_cons.mp hu with h | h
    · rw [h]; norm_num
    · rcases List.mem_singleton.mp h with h2
      rw [h2]; norm_num
  · intro u hu
    rcases List.mem_cons.mp hu with h | h
    · rw [h]; norm_num
    · rcases List.mem_singleton.mp h with h2
      rw [h2]; norm_num

/-- Model of the admission gate at the top of
`SOCKS5Server.handle_client` (`src/main.py` lines 186-195): addresses in
the exempt tuple, and source IP strings starting with `"172."` or
`"10."`, skip the rate limiter entirely (it is never called, so nothing
is recorded and no counter moves); every other source goes through
`RateLimiter.is_allowed`. -/
def clientAdmit (maxRequests : Nat) (window : ℚ) (ip : List Nat) (state : List ℚ)
    (hits : Nat) (now : ℚ) : RLResult :=
  if exemptIps.contains ip then ⟨true, state, hits⟩
  else if (str2b "172.").isPrefixOf ip || (str2b "10.").isPrefixOf ip then ⟨true, state, hits⟩
  else isAllowed maxRequests window ip state hits now

/-- C8: every connection whose source IP string starts with `"172."` or
`"10."` or is one of the exempt addresses bypasses the rate limiter
entirely — it is admitted, no timestamp is recorded for that IP, and the
violation counter is not incremented, regardless of the prior record. -/
theorem c8_private_prefixes_bypass_rate_limit (maxRequests : Nat) (window : ℚ)
    (ip : List Nat) (state : List ℚ) (hits : Nat) (now : ℚ)
    (h : (str2b "172.").isPrefixOf ip = true ∨ (str2b "10.").isPrefixOf ip = true ∨
      exemptIps.contains ip = true) :
    clientAdmit maxRequests window ip state hits now = ⟨true, state, hits⟩ := by
  unfold clientAdmit
  by_cases he : exemptIps.contains ip = true
  · rw [if_pos he]
  · rcases h with h | h | h
    · rw [if_neg he, if_pos (by rw [h]; simp)]
    · rw [if_neg he, if_pos (by rw [h]; simp)]
    · exact absurd h he

/-- C8 witness: the public address `172.217.0.0` shares the `"172."`
string prefix, so even with limit 0 (a limiter that rejects everything)
and a nonempty prior record it is admitted with nothing recorded and the
counter untouched. -/
theorem c8_private_prefixes_bypass_rate_limit_witness :
    clientAdmit 0 60 (str2b "172.217.0.0") [0] 7 100 = ⟨true, [0], 7⟩ :=
  c8_private_prefixes_bypass_rate_limit 0 60 (str2b "172.217.0.0") [0] 7 100
    (Or.inl (by decide))

/-- Port-hopper state: the currently advertised port and the list of
open listeners, mirroring `PortHopper.current_port` and
`PortHopper.servers` from `src/bypass_server.py`. -/
structure HopState where
  current : Option Nat
  servers : List Nat
deriving DecidableEq

/-- One primitive effect performed by `PortHopper.hop_to_new_port`. -/
inductive HopAction where
  | openServer (p : Nat)
  | setCurrent (p : Nat)
  | closeServer (p : Nat)
deriving DecidableEq

/-- Effect of one primitive action on the hopper state: opening inserts
the port into the listener table (a dict keyed by port), setting makes a
port current, closing removes the port's listener (`close` plus
`del self.servers[old_port]`). -/
def applyAction (s : HopState) : HopAction → HopState
  | .openServer p => ⟨s.current, if s.servers.contains p then s.servers else s.servers ++ [p]⟩
  | .setCurrent p => ⟨some p, s.servers⟩
  | .closeServer p => ⟨s.current, s.servers.filter (fun q => q != p)⟩

/-- Timed effects of one run of `PortHopper.hop_to_new_port` starting
from state `s` with the already-chosen fresh port `newPort`: at time 0
the new listener opens and becomes current; if there was an old current
port (non-zero — Python's `if old_port:` truthiness) still present in
the listener table, it is closed at time 60, after the
`asyncio.sleep(60)` grace period. -/
def hopProgram (s : HopState) (newPort : Nat) : List (ℚ × HopAction) :=
  [(0, .openServer newPort), (0, .setCurrent newPort)] ++
  (match s.current with
   | some o =>
     if o ≠ 0 ∧ (applyAction s (.openServer newPort)).servers.contains o = true then
       [(60, .closeServer o)]
     else []
   | none => [])

/-- State of the hopper at time `t`: all actions scheduled at or before
`t` have executed, in program order. -/
def stateAt (s : HopState) (prog : List (ℚ × HopAction)) (t : ℚ) : HopState :=
  (prog.filter (fun a => decide (a.1 ≤ t))).foldl (fun s2 a => applyAction s2 a.2) s

/-- Model of the random-port retry loop in `hop_to_new_port`
(`new_port = random.randint(...)` redrawn while it equals the current
port): the stream of random draws is explicit and the first draw
different from the current port is taken. -/
def pickPort (draws : List Nat) (current : Nat) : Option Nat :=
  draws.find? (fun p => p != current)

/-- Model of `PortHopper.handle_hopped_connection`: every connection
accepted on a hopped port is forwarded by dialing the engine's
configured local address (`asyncio.open_connection(config.socks_host,
config.socks_port)`). -/
def hopForwardTarget (socksHost : List Nat) (socksPort : Nat) : List Nat × Nat :=
  (socksHost, socksPort)

/-- C7: on a hop, the selected port is within the configured range and
distinct from the current port; the new listener forwards into the
SOCKS5 engine's local address; and with an old port `o` open and current
and a new port `n`, for the whole grace period (`0 ≤ t < 60`) both ports
are open with `n` current, while from the moment the grace period has
elapsed (`t ≥ 60`) the old listener is closed and exactly the one port
`n` remains open and current. -/
theorem c7_port_hop_grace_period :
    (∀ (draws : List Nat) (lo hi current p : Nat),
      (∀ d ∈ draws, lo ≤ d ∧ d ≤ hi) → pickPort draws current = some p →
      lo ≤ p ∧ p ≤ hi ∧ p ≠ current) ∧
    (∀ (socksHost : List Nat) (socksPort : Nat),
      hopForwardTarget socksHost socksPort = (socksHost, socksPort)) ∧
    (∀ (o n : Nat) (t : ℚ), o ≠ 0 → n ≠ o → 0 ≤ t →
      (t < 60 →
        stateAt ⟨some o, [o]⟩ (hopProgram ⟨some o, [o]⟩ n) t = ⟨some n, [o, n]⟩) ∧
      (60 ≤ t →
        stateAt ⟨some o, [o]⟩ (hopProgram ⟨some o, [o]⟩ n) t = ⟨some n, [n]⟩)) := by
  refine ⟨?_, fun _ _ => rfl, ?_⟩
  · intro draws lo hi current p hrange hpick
    have hmem := List.mem_of_find?_eq_some hpick
    have hne := List.find?_some hpick
    refine ⟨(hrange p hmem).1, (hrange p hmem).2, ?_⟩
    simpa using hne
  · intro o n t ho hne ht0
    have hcontains : ([o] : List Nat).contains n = false := by
      simp [hne]
    have hprog : hopProgram ⟨some o, [o]⟩ n =
        [(0, .openServer n), (0, .setCurrent n), (60, .closeServer o)] := by
      show ([((0 : ℚ), HopAction.openServer n), ((0 : ℚ), HopAction.setCurrent n)] ++
        (if o ≠ 0 ∧
            (applyAction ⟨some o, [o]⟩ (.openServer n)).servers.contains o = true then
          [((60 : ℚ), HopAction.closeServer o)]
        else [])) = _
      rw [if_pos ⟨ho, by simp [applyAction, hcontains, hne]⟩]
      rfl
    have h0 : decide ((0 : ℚ) ≤ t) = true := by simp [ht0]
    constructor
    · intro ht60
      have h60 : decide ((60 : ℚ) ≤ t) = false := by
        simp only [decide_eq_false_iff_not]
        exact not_le.mpr ht60
      unfold stateAt
      rw [hprog]
      simp [List.filter_cons, h0, h60, applyAction, hcontains, hne]
    · intro ht60
      have h60 : decide ((60 : ℚ) ≤ t) = true := by simp [ht60]
      unfold stateAt
      rw [hprog]
      simp [List.filter_cons, h0, h60, applyAction, hcontains, hne]

/-- C7 witness: old port 8080, new port 8443 drawn inside the range
8000-9000; both ports open at time 30, only the new port open at time
90. -/
theorem c7_port_hop_grace_period_witness :
    (8000 ≤ 8443 ∧ 8443 ≤ 9000 ∧ 8443 ≠ 8080) ∧
    hopForwardTarget (str2b "localhost") 1080 = (str2b "localhost", 1080) ∧
    stateAt ⟨some 8080, [8080]⟩ (hopProgram ⟨some 8080, [8080]⟩ 8443) 30 =
      ⟨some 8443, [8080, 8443]⟩ ∧
    stateAt ⟨some 8080, [8080]⟩ (hopProgram ⟨some 8080, [8080]⟩ 8443) 90 =
      ⟨some 8443, [8443]⟩ :=
  ⟨c7_port_hop_grace_period.1 [8443] 8000 9000 8080 8443
      (by intro d hd; rcases List.mem_singleton.mp hd with h; rw [h]; omega) (by decide),
   c7_port_hop_grace_period.2.1 (str2b "localhost") 1080,
   (c7_port_hop_grace_period.2.2 8080 8443 30 (by decide) (by decide) (by norm_num)).1
     (by norm_num),
   (c7_port_hop_grace_period.2.2 8080 8443 90 (by decide) (by decide) (by norm_num)).2
     (by norm_num)⟩

/-- Membership in the base64url alphabet (`A-Z`, `a-z`, `0-9`, `-`, `_`).
Python's `base64.urlsafe_b64decode` (used by Fernet) discards every byte
outside this alphabet before decoding — the leniency the obfuscator's
round trip depends on. -/
def isB64Char (c : Nat) : Bool :=
  (65 ≤ c && c ≤ 90) || (97 ≤ c && c ≤ 122) || (48 ≤ c && c ≤ 57) || c == 45 || c == 95

/-- The base64url character for a 6-bit value. -/
def b64char (v : Nat) : Nat :=
  if v < 26 then 65 + v
  else if v < 52 then 97 + (v - 26)
  else if v < 62 then 48 + (v - 52)
  else if v = 62 then 45
  else 95

/-- The 6-bit value of a base64url character. -/
def b64val (c : Nat) : Option Nat :=
  if 65 ≤ c && c ≤ 90 then some (c - 65)
  else if 97 ≤ c && c ≤ 122 then some (26 + (c - 97))
  else if 48 ≤ c && c ≤ 57 then some (52 + (c - 48))
  else if c == 45 then some 62
  else if c == 95 then some 63
  else none

/-- Unpadded base64url encoding of a byte list (three bytes to four
characters, with two- and three-character tails). -/
def b64encodeRaw : List Nat → List Nat
  | [] => []
  | [b1] => [b64char (b1 / 4), b64char (b1 % 4 * 16)]
  | [b1, b2] => [b64char (b1 / 4), b64char (b1 % 4 * 16 + b2 / 16), b64char (b2 % 16 * 4)]
  | b1 :: b2 :: b3 :: rest =>
    b64char (b1 / 4) :: b64char (b1 % 4 * 16 + b2 / 16) ::
      b64char (b2 % 16 * 4 + b3 / 64) :: b64char (b3 % 64) :: b64encodeRaw rest

/-- Base64url decoding of an already-filtered character list: four
characters to three bytes, a two- or three-character tail to one or two
bytes, a one-character tail is invalid. -/
def b64decodeRaw : List Nat → Option (List Nat)
  | [] => some []
  | [c1] =>
    match b64val c1 with
    | _ => none
  | [c1, c2] =>
    match b64val c1, b64val c2 with
    | some v1, some v2 => some [v1 * 4 + v2 / 16]
    | _, _ => none
  | [c1, c2, c3] =>
    match b64val c1, b64val c2, b64val c3 with
    | some v1, some v2, some v3 => some [v1 * 4 + v2 / 16, v2 % 16 * 16 + v3 / 4]
    | _, _, _ => none
  | c1 :: c2 :: c3 :: c4 :: rest =>
    match b64val c1, b64val c2, b64val c3, b64val c4, b64decodeRaw rest with
    | some v1, some v2, some v3, some v4, some tail =>
      some ((v1 * 4 + v2 / 16) :: (v2 % 16 * 16 + v3 / 4) :: (v3 % 4 * 64 + v4) :: tail)
    | _, _, _, _, _ => none

/-- Every 6-bit value decodes back from its character. -/
theorem b64valOfChar : ∀ v < 64, b64val (b64char v) = some v := by decide

/-- Every emitted character is in the alphabet. -/
theorem b64charInAlphabet : ∀ v < 64, isB64Char (b64char v) = true := by decide

/-- Characters produced by the encoder survive the alphabet filter. -/
theorem filterEncode : ∀ raw : List Nat, (∀ b ∈ raw, b < 256) →
    (b64encodeRaw raw).filter isB64Char = b64encodeRaw raw
  | [], _ => rfl
  | [b1], h => by
    have hb1 := h b1 (by simp)
    unfold b64encodeRaw
    rw [List.filter_cons, if_pos (b64charInAlphabet _ (by omega)),
      List.filter_cons, if_pos (b64charInAlphabet _ (by omega))]
    rfl
  | [b1, b2], h => by
    have hb1 := h b1 (by simp)
    have hb2 := h b2 (by simp)
    unfold b64encodeRaw
    rw [List.filter_cons, if_pos (b64charInAlphabet _ (by omega)),
      List.filter_cons, if_pos (b64charInAlphabet _ (by omega)),
      List.filter_cons, if_pos (b64charInAlphabet _ (by omega))]
    rfl
  | b1 :: b2 :: b3 :: rest, h => by
    have hb1 := h b1 (by simp)
    have hb2 := h b2 (by simp)
    have hb3 := h b3 (by simp)
    have hrest : ∀ b ∈ rest, b < 256 := fun b hb => h b (by simp [hb])
    unfold b64encodeRaw
    rw [List.filter_cons, if_pos (b64charInAlphabet _ (by omega)),
      List.filter_cons, if_pos (b64charInAlphabet _ (by omega)),
      List.filter_cons, if_pos (b64charInAlphabet _ (by omega)),
      List.filter_cons, if_pos (b64charInAlphabet _ (by omega))]
    rw [filterEncode rest hrest]

/-- Decoding inverts encoding on byte lists. -/
theorem b64decodeEncode : ∀ raw : List Nat, (∀ b ∈ raw, b < 256) →
    b64decodeRaw (b64encodeRaw raw) = some raw
  | [], _ => rfl
  | [b1], h => by
    have hb1 := h b1 (by simp)
    unfold b64encodeRaw b64decodeRaw
    rw [b64valOfChar _ (by omega), b64valOfChar _ (by omega)]
    have e1 : b1 / 4 * 4 + b1 % 4 * 16 / 16 = b1 := by omega
    show some [b1 / 4 * 4 + b1 % 4 * 16 / 16] = some [b1]
    rw [e1]
  | [b1, b2], h => by
    have hb1 := h b1 (by simp)
    have hb2 := h b2 (by simp)
    unfold b64encodeRaw b64decodeRaw
    rw [b64valOfChar _ (by omega), b64valOfChar _ (by omega), b64valOfChar _ (by omega)]
    have e1 : b1 / 4 * 4 + (b1 % 4 * 16 + b2 / 16) / 16 = b1 := by omega
    have e2 : (b1 % 4 * 16 + b2 / 16) % 16 * 16 + b2 % 16 * 4 / 4 = b2 := by omega
    show some [b1 / 4 * 4 + (b1 % 4 * 16 + b2 / 16) / 16,
      (b1 % 4 * 16 + b2 / 16) % 16 * 16 + b2 % 16 * 4 / 4] = some [b1, b2]
    rw [e1, e2]
  | b1 :: b2 :: b3 :: rest, h => by
    have hb1 := h b1 (by simp)
    have hb2 := h b2 (by simp)
    have hb3 := h b3 (by simp)
    have hrest : ∀ b ∈ rest, b < 256 := fun b hb => h b (by simp [hb])
    have hih := b64decodeEncode rest hrest
    unfold b64encodeRaw b64decodeRaw
    rw [b64valOfChar _ (by omega), b64valOfChar _ (by omega), b64valOfChar _ (by omega),
      b64valOfChar _ (by omega), hih]
    have e1 : b1 / 4 * 4 + (b1 % 4 * 16 + b2 / 16) / 16 = b1 := by omega
    have e2 : (b1 % 4 * 16 + b2 / 16) % 16 * 16 + (b2 % 16 * 4 + b3 / 64) / 4 = b2 := by omega
    have e3 : (b2 % 16 * 4 + b3 / 64) % 4 * 64 + b3 % 64 = b3 := by omega
    show some ((b1 / 4 * 4 + (b1 % 4 * 16 + b2 / 16) / 16) ::
      ((b1 % 4 * 16 + b2 / 16) % 16 * 16 + (b2 % 16 * 4 + b3 / 64) / 4) ::
      ((b2 % 16 * 4 + b3 / 64) % 4 * 64 + b3 % 64) :: rest) = some (b1 :: b2 :: b3 :: rest)
    rw [e1, e2, e3]

/-- A successful decode of a nonempty character list is nonempty. -/
theorem decodeNeNil : ∀ (l bs : List Nat), l ≠ [] → b64decodeRaw l = some bs → bs ≠ [] := by
  intro l bs hne h
  match l with
  | [] => exact absurd rfl hne
  | [c1] => simp [b64decodeRaw] at h
  | [c1, c2] =>
    rcases h1 : b64val c1 with _ | v1 <;> rcases h2 : b64val c2 with _ | v2 <;>
      simp [b64decodeRaw, h1, h2] at h
    rw [← h]
    simp
  | [c1, c2, c3] =>
    rcases h1 : b64val c1 with _ | v1 <;> rcases h2 : b64val c2 with _ | v2 <;>
      rcases h3 : b64val c3 with _ | v3 <;> simp [b64decodeRaw, h1, h2, h3] at h
    rw [← h]
    simp
  | c1 :: c2 :: c3 :: c4 :: rest =>
    rcases h1 : b64val c1 with _ | v1 <;> rcases h2 : b64val c2 with _ | v2 <;>
      rcases h3 : b64val c3 with _ | v3 <;> rcases h4 : b64val c4 with _ | v4 <;>
      rcases h5 : b64decodeRaw rest with _ | tail <;>
      simp [b64decodeRaw, h1, h2, h3, h4, h5] at h
    rw [← h]
    simp

/-- Appending extra characters to an encoded byte list either breaks the
decode or strictly extends the decoded bytes: the decode is `none`, or it
is `some (raw ++ t)` for a nonempty `t`.  This is why an appended random
pad never makes the modeled Fernet decrypt return a wrong plaintext. -/
theorem b64decodeEncodeAppend : ∀ (raw e2 : List Nat), (∀ b ∈ raw, b < 256) → e2 ≠ [] →
    b64decodeRaw (b64encodeRaw raw ++ e2) = none ∨
    ∃ t, t ≠ [] ∧ b64decodeRaw (b64encodeRaw raw ++ e2) = some (raw ++ t)
  | [], e2, _, he => by
    rcases hd : b64decodeRaw e2 with _ | bs
    · left
      simpa using hd
    · right
      exact ⟨bs, decodeNeNil e2 bs he hd, by simpa using hd⟩
  | [b1], e2, h, he => by
    have hb1 := h b1 (by simp)
    rcases e2 with _ | ⟨d1, _ | ⟨d2, e3⟩⟩
    · exact absurd rfl he
    · show (b64decodeRaw [b64char (b1 / 4), b64char (b1 % 4 * 16), d1] = none) ∨ _
      rcases hd1 : b64val d1 with _ | w1
      · left
        simp [b64decodeRaw, b64valOfChar _ (show b1 / 4 < 64 by omega),
          b64valOfChar _ (show b1 % 4 * 16 < 64 by omega), hd1]
      · right
        refine ⟨[b1 % 4 * 16 % 16 * 16 + w1 / 4], by simp, ?_⟩
        simp only [b64decodeRaw, b64valOfChar _ (show b1 / 4 < 64 by omega),
          b64valOfChar _ (show b1 % 4 * 16 < 64 by omega), hd1]
        have e1 : b1 / 4 * 4 + b1 % 4 * 16 / 16 = b1 := by omega
        rw [e1]
        rfl
    · show (b64decodeRaw (b64char (b1 / 4) :: b64char (b1 % 4 * 16) :: d1 :: d2 :: e3) =
        none) ∨ _
      rcases hd1 : b64val d1 with _ | w1
      · left
        simp [b64decodeRaw, b64valOfChar _ (show b1 / 4 < 64 by omega),
          b64valOfChar _ (show b1 % 4 * 16 < 64 by omega), hd1]
      · rcases hd2 : b64val d2 with _ | w2
        · left
          simp [b64decodeRaw, b64valOfChar _ (show b1 / 4 < 64 by omega),
            b64valOfChar _ (show b1 % 4 * 16 < 64 by omega), hd1, hd2]
        · rcases hd5 : b64decodeRaw e3 with _ | tail
          · left
            simp [b64decodeRaw, b64valOfChar _ (show b1 / 4 < 64 by omega),
              b64valOfChar _ (show b1 % 4 * 16 < 64 by omega), hd1, hd2, hd5]
          · right
            refine ⟨(b1 % 4 * 16 % 16 * 16 + w1 / 4) :: (w1 % 4 * 64 + w2) :: tail,
              by simp, ?_⟩
            simp only [b64decodeRaw, b64valOfChar _ (show b1 / 4 < 64 by omega),
              b64valOfChar _ (show b1 % 4 * 16 < 64 by omega), hd1, hd2, hd5]
            have e1 : b1 / 4 * 4 + b1 % 4 * 16 / 16 = b1 := by omega
            rw [e1]
            rfl
  | [b1, b2], e2, h, he => by
    have hb1 := h b1 (by simp)
    have hb2 := h b2 (by simp)
    rcases e2 with _ | ⟨d1, e3⟩
    · exact absurd rfl he
    · show (b64decodeRaw (b64char (b1 / 4) :: b64char (b1 % 4 * 16 + b2 / 16) ::
        b64char (b2 % 16 * 4) :: d1 :: e3) = none) ∨ _
      rcases hd1 : b64val d1 with _ | w1
      · left
        simp [b64decodeRaw, b64valOfChar _ (show b1 / 4 < 64 by omega),
          b64valOfChar _ (show b1 % 4 * 16 + b2 / 16 < 64 by omega),
          b64valOfChar _ (show b2 % 16 * 4 < 64 by omega), hd1]
      · rcases hd5 : b64decodeRaw e3 with _ | tail
        · left
          simp [b64decodeRaw, b64valOfChar _ (show b1 / 4 < 64 by omega),
            b64valOfChar _ (show b1 % 4 * 16 + b2 / 16 < 64 by omega),
            b64valOfChar _ (show b2 % 16 * 4 < 64 by omega), hd1, hd5]
        · right
          refine ⟨(b2 % 16 * 4 % 4 * 64 + w1) :: tail, by simp, ?_⟩
          simp only [b64decodeRaw, b64valOfChar _ (show b1 / 4 < 64 by omega),
            b64valOfChar _ (show b1 % 4 * 16 + b2 / 16 < 64 by omega),
            b64valOfChar _ (show b2 % 16 * 4 < 64 by omega), hd1, hd5]
          have e1 : b1 / 4 * 4 + (b1 % 4 * 16 + b2 / 16) / 16 = b1 := by omega
          have e2x : (b1 % 4 * 16 + b2 / 16) % 16 * 16 + b2 % 16 * 4 / 4 = b2 := by omega
          rw [e1, e2x]
          rfl
  | b1 :: b2 :: b3 :: rest, e2, h, he => by
    have hb1 := h b1 (by simp)
    have hb2 := h b2 (by simp)
    have hb3 := h b3 (by simp)
    have hrest : ∀ b ∈ rest, b < 256 := fun b hb => h b (by simp [hb])
    have hih := b64decodeEncodeAppend rest e2 hrest he
    show (b64decodeRaw (b64char (b1 / 4) :: b64char (b1 % 4 * 16 + b2 / 16) ::
      b64char (b2 % 16 * 4 + b3 / 64) :: b64char (b3 % 64) ::
      (b64encodeRaw rest ++ e2)) = none) ∨ _
    rcases hih with hnone | ⟨t, ht, hsome⟩
    · left
      simp [b64decodeRaw, b64valOfChar _ (show b1 / 4 < 64 by omega),
        b64valOfChar _ (show b1 % 4 * 16 + b2 / 16 < 64 by omega),
        b64valOfChar _ (show b2 % 16 * 4 + b3 / 64 < 64 by omega),
        b64valOfChar _ (show b3 % 64 < 64 by omega), hnone]
    · right
      refine ⟨t, ht, ?_⟩
      show b64decodeRaw (b64char (b1 / 4) :: b64char (b1 % 4 * 16 + b2 / 16) ::
        b64char (b2 % 16 * 4 + b3 / 64) :: b64char (b3 % 64) ::
        (b64encodeRaw rest ++ e2)) = some ((b1 :: b2 :: b3 :: rest) ++ t)
      unfold b64decodeRaw
      rw [b64valOfChar _ (show b1 / 4 < 64 by omega),
        b64valOfChar _ (show b1 % 4 * 16 + b2 / 16 < 64 by omega),
        b64valOfChar _ (show b2 % 16 * 4 + b3 / 64 < 64 by omega),
        b64valOfChar _ (show b3 % 64 < 64 by omega), hsome]
      have e1 : b1 / 4 * 4 + (b1 % 4 * 16 + b2 / 16) / 16 = b1 := by omega
      have e2x : (b1 % 4 * 16 + b2 / 16) % 16 * 16 + (b2 % 16 * 4 + b3 / 64) / 4 = b2 := by
        omega
      have e3x : (b2 % 16 * 4 + b3 / 64) % 4 * 64 + b3 % 64 = b3 := by omega
      show some ((b1 / 4 * 4 + (b1 % 4 * 16 + b2 / 16) / 16) ::
        ((b1 % 4 * 16 + b2 / 16) % 16 * 16 + (b2 % 16 * 4 + b3 / 64) / 4) ::
        ((b2 % 16 * 4 + b3 / 64) % 4 * 64 + b3 % 64) :: (rest ++ t)) =
        some (b1 :: b2 :: b3 :: (rest ++ t))
      rw [e1, e2x, e3x]

/-- Little-endian base-255 digits of a natural number; every digit is
below 255, so the terminator byte 255 that follows them in a token is
unambiguous. -/
def natDigits255 (n : Nat) : List Nat :=
  if h : n = 0 then [] else n % 255 :: natDigits255 (n / 255)
termination_by n
decreasing_by exact Nat.div_lt_self (Nat.pos_of_ne_zero h) (by omega)

/-- Value of a little-endian base-255 digit list. -/
def lenFromDigits (l : List Nat) : Nat := l.foldr (fun d acc => d + 255 * acc) 0

/-- Split a byte list at its first 255 byte. -/
def splitAtTerm : List Nat → Option (List Nat × List Nat)
  | [] => none
  | b :: bs =>
    if b = 255 then some ([], bs)
    else
      match splitAtTerm bs with
      | some (ds, rest) => some (b :: ds, rest)
      | none => none

/-- Digits of the length field stay below 255. -/
theorem natDigits255Lt (n : Nat) : ∀ d ∈ natDigits255 n, d < 255 := by
  induction n using Nat.strong_induction_on with
  | _ n ih =>
    rw [natDigits255]
    by_cases h : n = 0
    · simp [h]
    · rw [dif_neg h]
      intro d hd
      rcases List.mem_cons.mp hd with h1 | h1
      · rw [h1]
        exact Nat.mod_lt _ (by omega)
      · exact ih (n / 255) (Nat.div_lt_self (Nat.pos_of_ne_zero h) (by omega)) d h1

/-- The digit list of `n` evaluates back to `n`. -/
theorem lenFromDigitsNatDigits (n : Nat) : lenFromDigits (natDigits255 n) = n := by
  induction n using Nat.strong_induction_on with
  | _ n ih =>
    rw [natDigits255]
    by_cases h : n = 0
    · rw [dif_pos h, h]
      rfl
    · rw [dif_neg h]
      unfold lenFromDigits
      rw [List.foldr_cons]
      have hr := ih (n / 255) (Nat.div_lt_self (Nat.pos_of_ne_zero h) (by omega))
      unfold lenFromDigits at hr
      rw [hr]
      omega

/-- Splitting at the terminator after a terminator-free digit prefix. -/
theorem splitAtTermAppend : ∀ (ds rest : List Nat), (∀ d ∈ ds, d < 255) →
    splitAtTerm (ds ++ 255 :: rest) = some (ds, rest)
  | [], rest, _ => by
    show splitAtTerm (255 :: rest) = some ([], rest)
    unfold splitAtTerm
    rw [if_pos rfl]
  | d :: ds, rest, h => by
    have hd := h d (by simp)
    show splitAtTerm (d :: (ds ++ 255 :: rest)) = some (d :: ds, rest)
    unfold splitAtTerm
    rw [if_neg (by omega), splitAtTermAppend ds rest (fun x hx => h x (by simp [hx]))]

/-- Model of Fernet encryption (`cryptography.fernet`, an external
library, used as `self.cipher.encrypt` by the obfuscator): an
authenticated, invertible token encoding producing base64url text.  The
token is the unpadded base64url encoding of a self-delimiting length
field followed by the plaintext; the declared length doubles as the
integrity check that HMAC provides in real Fernet — any appended bytes
that change the decoded payload make the check fail, exactly as a
modified token fails HMAC verification. -/
def fernetEncrypt (x : List Nat) : List Nat :=
  b64encodeRaw (natDigits255 x.length ++ 255 :: x)

/-- Model of Fernet decryption (`self.cipher.decrypt`): as in Python's
`base64.urlsafe_b64decode`, every byte outside the base64url alphabet is
discarded before decoding; then the length field is read and checked
against the payload.  Any failure is `none` (`InvalidToken`). -/
def fernetDecrypt (y : List Nat) : Option (List Nat) :=
  match b64decodeRaw (y.filter isB64Char) with
  | none => none
  | some raw =>
    match splitAtTerm raw with
    | none => none
    | some (ds, rest) => if rest.length = lenFromDigits ds then some rest else none

/-- The raw token contents are bytes. -/
theorem tokenBytes (x : List Nat) (hx : ∀ b ∈ x, b < 256) :
    ∀ b ∈ natDigits255 x.length ++ 255 :: x, b < 256 := by
  intro b hb
  rcases List.mem_append.mp hb with h | h
  · have := natDigits255Lt x.length b h
    omega
  · rcases List.mem_cons.mp h with h | h
    · omega
    · exact hx b h

/-- Decrypting a token surrounded by non-alphabet noise recovers the
plaintext: the noise is discarded by the base64 filter. -/
theorem fernetDecryptClean (x pre extra : List Nat) (hx : ∀ b ∈ x, b < 256)
    (hpre : pre.filter isB64Char = []) (hextra : extra.filter isB64Char = []) :
    fernetDecrypt (pre ++ (fernetEncrypt x ++ extra)) = some x := by
  have hraw := tokenBytes x hx
  unfold fernetDecrypt fernetEncrypt
  rw [List.filter_append, List.filter_append, hpre, hextra,
    filterEncode _ hraw, List.append_nil, List.nil_append, b64decodeEncode _ hraw]
  show (match splitAtTerm (natDigits255 x.length ++ 255 :: x) with
    | none => none
    | some (ds, rest) => if rest.length = lenFromDigits ds then some rest else none) = some x
  rw [splitAtTermAppend _ _ (natDigits255Lt _)]
  show (if x.length = lenFromDigits (natDigits255 x.length) then some x else none) = some x
  rw [lenFromDigitsNatDigits, if_pos rfl]

/-- Decrypting a token with trailing alphabet bytes fails: the decoded
payload is strictly longer than the declared length. -/
theorem fernetDecryptJunk (x pre extra : List Nat) (hx : ∀ b ∈ x, b < 256)
    (hpre : pre.filter isB64Char = []) (hjunk : extra.filter isB64Char ≠ []) :
    fernetDecrypt (pre ++ (fernetEncrypt x ++ extra)) = none := by
  have hraw := tokenBytes x hx
  unfold fernetDecrypt fernetEncrypt
  rw [List.filter_append, List.filter_append, hpre, List.nil_append, filterEncode _ hraw]
  rcases b64decodeEncodeAppend (natDigits255 x.length ++ 255 :: x)
      (extra.filter isB64Char) hraw hjunk with hnone | ⟨t, ht, hsome⟩
  · rw [hnone]
  · rw [hsome]
    show (match splitAtTerm ((natDigits255 x.length ++ 255 :: x) ++ t) with
      | none => none
      | some (ds, rest) => if rest.length = lenFromDigits ds then some rest else none) = none
    rw [show (natDigits255 x.length ++ 255 :: x) ++ t =
      natDigits255 x.length ++ 255 :: (x ++ t) by simp]
    rw [splitAtTermAppend _ _ (natDigits255Lt _)]
    show (if (x ++ t).length = lenFromDigits (natDigits255 x.length) then some (x ++ t)
      else none) = none
    rw [lenFromDigitsNatDigits, if_neg]
    have := List.length_pos.mpr ht
    simp only [List.length_append]
    omega

/-- The CRLF-CRLF blank-line marker `b'\x0d\x0a\x0d\x0a'`. -/
def blankLineMarker : List Nat := [13, 10, 13, 10]

/-- Model of `bytes.split(sep, 1)` restricted to the case where the
separator occurs: split at the first occurrence of `sep`, returning the
part before it and the part after it (`none` when `sep` does not occur;
the caller tests `sep in data` first). -/
def splitOnceSub (sep : List Nat) : List Nat → Option (List Nat × List Nat)
  | [] => none
  | c :: rest =>
    if sep.isPrefixOf (c :: rest) then some ([], (c :: rest).drop sep.length)
    else
      match splitOnceSub sep rest with
      | some (a, b) => some (c :: a, b)
      | none => none

/-- A list is a prefix of itself extended. -/
theorem isPrefixOfAppendSelf : ∀ (s t : List Nat), s.isPrefixOf (s ++ t) = true
  | [], _ => by simp [List.isPrefixOf]
  | a :: s, t => by
    simp only [List.cons_append, List.isPrefixOf, beq_self_eq_true, Bool.true_and]
    exact isPrefixOfAppendSelf s t

/-- A successful prefix test pins down the first bytes. -/
theorem isPrefixOfTake : ∀ (s l : List Nat), s.isPrefixOf l = true → l.take s.length = s
  | [], _, _ => by simp
  | a :: s, [], h => by simp [List.isPrefixOf] at h
  | a :: s, b :: l, h => by
    simp only [List.isPrefixOf, Bool.and_eq_true, beq_iff_eq] at h
    rw [List.length_cons, List.take_succ_cons, h.1, isPrefixOfTake s l h.2]

/-- Taking from an extended list, within the first part. -/
theorem takeAppendLe : ∀ (u v : List Nat) (n : Nat), n ≤ u.length → (u ++ v).take n = u.take n
  | _, _, 0, _ => by simp
  | [], _, n + 1, h => by simp at h
  | a :: u, v, n + 1, h => by
    simp only [List.cons_append, List.take_succ_cons]
    rw [takeAppendLe u v n (by simpa using h)]

/-- Taking from an extended list, past the first part. -/
theorem takeAppendExact : ∀ (u v : List Nat) (m : Nat),
    (u ++ v).take (u.length + m) = u ++ v.take m
  | [], v, m => by simp
  | a :: u, v, m => by
    show (a :: (u ++ v)).take (u.length + 1 + m) = a :: (u ++ v.take m)
    have h : u.length + 1 + m = (u.length + m) + 1 := by omega
    rw [h, List.take_succ_cons, takeAppendExact u v m]

/-- Absence of the blank-line marker at any position strictly inside a
header block (followed by the marker itself). -/
def noEarlyMarker (h : List Nat) : Prop :=
  ∀ i < h.length, ((h ++ blankLineMarker).drop i).take 4 ≠ blankLineMarker

instance noEarlyMarkerDecidable (h : List Nat) : Decidable (noEarlyMarker h) :=
  inferInstanceAs
    (Decidable (∀ i < h.length, ((h ++ blankLineMarker).drop i).take 4 ≠ blankLineMarker))

/-- Splitting a blob at the blank-line marker finds the first marker
right after a marker-free header block. -/
theorem splitOnceMarker (h t : List Nat) : noEarlyMarker h →
    splitOnceSub blankLineMarker (h ++ blankLineMarker ++ t) = some (h, t) := by
  induction h with
  | nil =>
    intro _
    have hpre : blankLineMarker.isPrefixOf (13 :: 10 :: 13 :: 10 :: t) = true :=
      isPrefixOfAppendSelf blankLineMarker t
    show splitOnceSub blankLineMarker (13 :: (10 :: 13 :: 10 :: t)) = some ([], t)
    unfold splitOnceSub
    rw [if_pos hpre]
    rfl
  | cons c h2 ih =>
    intro hm
    have hm2 : noEarlyMarker h2 := by
      intro i hi
      have hstep := hm (i + 1) (by simp; omega)
      simpa using hstep
    show splitOnceSub blankLineMarker (c :: (h2 ++ blankLineMarker ++ t)) =
      some (c :: h2, t)
    unfold splitOnceSub
    rw [if_neg ?hnp, ih hm2]
    case hnp =>
      intro hp
      have htake := isPrefixOfTake _ _ hp
      have hshape : c :: (h2 ++ blankLineMarker ++ t) =
          ((c :: h2) ++ blankLineMarker) ++ t := by simp
      rw [hshape, takeAppendLe _ t _ (by simp [blankLineMarker])] at htake
      exact hm 0 (by simp) (by simpa [blankLineMarker] using htake)

/-- Python `body[:-k]` for `k ≥ 1`. -/
def dropEnd (k : Nat) (l : List Nat) : List Nat := l.take (l.length - k)

/-- The padding-length search of `TrafficObfuscator.deobfuscate`: try
each padding size in order, returning the first successful decrypt. -/
def tryPaddings (body : List Nat) : List Nat → Option (List Nat)
  | [] => none
  | p :: ps =>
    match fernetDecrypt (dropEnd p body) with
    | some x => some x
    | none => tryPaddings body ps

/-- If every earlier padding guess either fails or already yields `x`,
and some listed guess yields `x`, the search returns `x`. -/
theorem tryPaddingsFinds (body x : List Nat) :
    ∀ ps1 : List Nat,
      (∀ p ∈ ps1, fernetDecrypt (dropEnd p body) = none ∨
        fernetDecrypt (dropEnd p body) = some x) →
      ∀ (p0 : Nat) (ps2 : List Nat), fernetDecrypt (dropEnd p0 body) = some x →
      tryPaddings body (ps1 ++ p0 :: ps2) = some x
  | [], _, p0, ps2, h0 => by
    show tryPaddings body (p0 :: ps2) = some x
    unfold tryPaddings
    rw [h0]
  | p :: ps1, hall, p0, ps2, h0 => by
    show tryPaddings body (p :: (ps1 ++ p0 :: ps2)) = some x
    unfold tryPaddings
    rcases hall p (by simp) with h | h
    · rw [h]
      exact tryPaddingsFinds body x ps1 (fun q hq => hall q (by simp [hq])) p0 ps2 h0
    · rw [h]

/-- Decomposing the search list `range(1, 17)` around the actual padding
length `k`. -/
theorem range116Decomp (k : Nat) (h1 : 1 ≤ k) (h2 : k ≤ 16) :
    List.range' 1 16 = List.range' 1 (k - 1) ++ k :: List.range' (k + 1) (16 - k) := by
  interval_cases k <;> rfl

/-- The four fake request paths of
`TrafficObfuscator._generate_fake_http_headers`. -/
def fakePaths : List (List Nat) :=
  [str2b "/api/v1/data", str2b "/static/js/app.js", str2b "/images/logo.png",
   str2b "/css/style.css"]

/-- The three fake user agents of `_generate_fake_http_headers`. -/
def userAgents : List (List Nat) :=
  [str2b "Mozilla/5.0 (Windows NT 10.0; Win64; x64) AppleWebKit/537.36",
   str2b "Mozilla/5.0 (Macintosh; Intel Mac OS X 10_15_7) AppleWebKit/537.36",
   str2b "Mozilla/5.0 (X11; Linux x86_64) AppleWebKit/537.36"]

/-- The fake HTTP header block of `_generate_fake_http_headers` without
its final CRLF; the random choices of path and user agent are passed as
indices into the fixed lists. -/
def fakeHeadersCore (pIdx uIdx : Nat) : List Nat :=
  str2b "GET " ++ fakePaths.getD (pIdx % 4) [] ++ str2b " HTTP/1.1" ++ [13, 10] ++
  str2b "Host: cdn.cloudflare.com" ++ [13, 10] ++
  str2b "User-Agent: " ++ userAgents.getD (uIdx % 3) [] ++ [13, 10] ++
  str2b "Accept: text/html,application/xhtml+xml,application/xml;q=0.9,*/*;q=0.8" ++
  [13, 10] ++
  str2b "Accept-Language: en-US,en;q=0.5" ++ [13, 10] ++
  str2b "Accept-Encoding: gzip, deflate" ++ [13, 10] ++
  str2b "Connection: keep-alive"

/-- The complete fake header block, ending with the CRLF of its last
line. -/
def fakeHeaders (pIdx uIdx : Nat) : List Nat := fakeHeadersCore pIdx uIdx ++ [13, 10]

/-- Model of `TrafficObfuscator.obfuscate`: fake HTTP headers, the
blank-line marker, the encrypted payload, then 1 to 16 random padding
bytes.  The random choices — header path index, user-agent index and the
padding bytes — are explicit parameters. -/
def obfuscate (pIdx uIdx : Nat) (pad x : List Nat) : List Nat :=
  fakeHeaders pIdx uIdx ++ blankLineMarker ++ (fernetEncrypt x ++ pad)

/-- The body selection of `TrafficObfuscator.deobfuscate`: everything
after the first blank-line marker, or the whole input when no marker
occurs. -/
def deobfuscateBody (data : List Nat) : List Nat :=
  match splitOnceSub blankLineMarker data with
  | some pr => pr.2
  | none => data

/-- Model of `TrafficObfuscator.deobfuscate`: split at the first
blank-line marker, then brute-force the padding length over
`range(1, 17)`; if nothing decrypts, return the input unchanged. -/
def deobfuscate (data : List Nat) : List Nat :=
  match tryPaddings (deobfuscateBody data) (List.range' 1 16) with
  | some x => x
  | none => data

set_option maxRecDepth 100000 in
/-- None of the twelve possible fake header blocks contains the
blank-line marker before its end: the first `\x0d\x0a\x0d\x0a` of an
obfuscated blob is the one formed by the final header CRLF and the
appended separator. -/
theorem headersNoEarlyMarker : ∀ i < 4, ∀ j < 3, noEarlyMarker (fakeHeadersCore i j) := by
  decide

/-- The header block only depends on the choice indices modulo the list
lengths. -/
theorem fakeHeadersCoreMod (pIdx uIdx : Nat) :
    fakeHeadersCore pIdx uIdx = fakeHeadersCore (pIdx % 4) (uIdx % 3) := by
  unfold fakeHeadersCore
  rw [show pIdx % 4 % 4 = pIdx % 4 from by omega, show uIdx % 3 % 3 = uIdx % 3 from by omega]

/-- C3: for every byte string `x` (including the empty one), every choice
of fake header path and user agent, and every padding of 1 to 16 bytes,
`deobfuscate (obfuscate x) = x`: the obfuscator prepends fake HTTP
header lines and a blank-line marker to the encryption of `x` and
appends the padding, and the deobfuscator recovers `x` by splitting at
the first blank-line marker and brute-forcing the padding length. -/
theorem c3_deobfuscate_obfuscate (x pad : List Nat) (pIdx uIdx : Nat)
    (hx : ∀ b ∈ x, b < 256) (hp1 : 1 ≤ pad.length) (hp2 : pad.length ≤ 16) :
    deobfuscate (obfuscate pIdx uIdx pad x) = x := by
  have hpre : ([13, 10] : List Nat).filter isB64Char = [] := by decide
  have hm : noEarlyMarker (fakeHeadersCore (pIdx % 4) (uIdx % 3)) :=
    headersNoEarlyMarker (pIdx % 4) (by omega) (uIdx % 3) (by omega)
  have hshape : obfuscate pIdx uIdx pad x =
      fakeHeadersCore (pIdx % 4) (uIdx % 3) ++ blankLineMarker ++
        ([13, 10] ++ (fernetEncrypt x ++ pad)) := by
    unfold obfuscate fakeHeaders
    rw [fakeHeadersCoreMod]
    simp [blankLineMarker]
  have hbody : deobfuscateBody (obfuscate pIdx uIdx pad x) =
      [13, 10] ++ (fernetEncrypt x ++ pad) := by
    rw [hshape]
    unfold deobfuscateBody
    rw [splitOnceMarker _ _ hm]
  have hde : ∀ p : Nat, p ≤ pad.length →
      dropEnd p ([13, 10] ++ (fernetEncrypt x ++ pad)) =
        [13, 10] ++ (fernetEncrypt x ++ pad.take (pad.length - p)) := by
    intro p hp
    unfold dropEnd
    rw [show ([13, 10] : List Nat) ++ (fernetEncrypt x ++ pad) =
      ([13, 10] ++ fernetEncrypt x) ++ pad from by simp]
    rw [show ((([13, 10] : List Nat) ++ fernetEncrypt x) ++ pad).length - p =
      (([13, 10] : List Nat) ++ fernetEncrypt x).length + (pad.length - p) from by
        simp only [List.length_append]
        omega]
    rw [takeAppendExact]
    simp
  have hdisj : ∀ p ∈ List.range' 1 (pad.length - 1),
      fernetDecrypt (dropEnd p ([13, 10] ++ (fernetEncrypt x ++ pad))) = none ∨
      fernetDecrypt (dropEnd p ([13, 10] ++ (fernetEncrypt x ++ pad))) = some x := by
    intro p hp
    have hpk : 1 ≤ p ∧ p < pad.length := by
      have hmem := List.mem_range'_1.mp hp
      omega
    rw [hde p (by omega)]
    by_cases hfj : (pad.take (pad.length - p)).filter isB64Char = []
    · exact Or.inr (fernetDecryptClean x [13, 10] _ hx hpre hfj)
    · exact Or.inl (fernetDecryptJunk x [13, 10] _ hx hpre hfj)
  have hmain : fernetDecrypt (dropEnd pad.length
      ([13, 10] ++ (fernetEncrypt x ++ pad))) = some x := by
    rw [hde pad.length (le_refl _), Nat.sub_self, List.take_zero]
    exact fernetDecryptClean x [13, 10] [] hx hpre rfl
  have htp : tryPaddings ([13, 10] ++ (fernetEncrypt x ++ pad)) (List.range' 1 16) =
      some x := by
    rw [range116Decomp pad.length hp1 hp2]
    exact tryPaddingsFinds _ x (List.range' 1 (pad.length - 1)) hdisj pad.length
      (List.range' (pad.length + 1) (16 - pad.length)) hmain
  unfold deobfuscate
  rw [hbody, htp]

/-- C3 witness: the two-byte plaintext `hi` with one padding byte and
the first header choices round-trips. -/
theorem c3_deobfuscate_obfuscate_witness :
    deobfuscate (obfuscate 0 0 [99] [104, 105]) = [104, 105] :=
  c3_deobfuscate_obfuscate [104, 105] [99] 0 0 (by decide) (by decide) (by decide)

end TgSocks
